import Mathlib

/-!
Verification of the noun-phrase / main-verb metrics of Coh-Metrix-Dementia
(`coh/metrics/constituents.py`) and of the resource-pool and category
contracts described in the accompanying design document.

The numeric computations of the Python code (floats) are embedded over `ℚ`,
with exact arithmetic; `numpy`'s NaN-producing means are embedded by an
explicit `NpFloat` type with a `nan` constructor, and Python exceptions
(`ZeroDivisionError`, `ValueError` from `max`/`min`/`list.index` on missing
data) are embedded as `Option`/`none`.
-/

namespace CohMetrix

/-- A tagged word: pair of surface form and part-of-speech tag
(the tuples produced by the POS tagger). -/
structure TaggedWord where
  surface : String
  tag : String
deriving DecidableEq, Repr

/-- A tagset, as exposed by the external taggers: a vocabulary of POS labels
together with predicates classifying tagged words.  The taggers themselves
are external black-box tools, so the predicates are abstract here. -/
structure Tagset where
  is_verb : TaggedWord → Bool
  is_punctuation : TaggedWord → Bool

/-- A constituency parse tree (as produced by the LX-Parser): internal nodes
carry constituent labels, leaves carry surface words. -/
inductive PTree where
  | leaf (word : String)
  | node (label : String) (children : List PTree)
deriving Repr

mutual
/-- Modelled from the spec: `coh.utils.find_subtrees` is not under `src/`.
Per the spec, Noun Phrase Incidence counts "constituents labeled NP in its
parse tree", so this returns every subtree of `tree` bearing the given
constituent label, the tree itself included when it matches. -/
def find_subtrees (tree : PTree) (label : String) : List PTree :=
  match tree with
  | .leaf _ => []
  | .node lab cs =>
      let rest := find_subtreesList cs label
      if lab = label then PTree.node lab cs :: rest else rest

/-- Helper for `find_subtrees`: matching subtrees of each tree in a list. -/
def find_subtreesList (trees : List PTree) (label : String) : List PTree :=
  match trees with
  | [] => []
  | t :: ts => find_subtrees t label ++ find_subtreesList ts label
end

mutual
/-- The leaves (surface words) of a parse tree, left to right. -/
def PTree.leaves (tree : PTree) : List String :=
  match tree with
  | .leaf w => [w]
  | .node _ cs => PTree.leavesList cs

/-- Leaves of each tree in a list, concatenated. -/
def PTree.leavesList (trees : List PTree) : List String :=
  match trees with
  | [] => []
  | t :: ts => t.leaves ++ PTree.leavesList ts
end

mutual
/-- Modelled from the spec: the resource pool's noun-phrase-leaf extraction is
not under `src/`.  Per the spec's glossary, a top-level NP is "an NP
constituent not nested within another NP": this collects the maximal
NP-labeled subtrees, not descending into an NP once found. -/
def toplevelNPs (tree : PTree) : List PTree :=
  match tree with
  | .leaf _ => []
  | .node lab cs =>
      if lab = "NP" then [PTree.node lab cs] else toplevelNPsList cs

/-- Top-level NPs of each tree in a list, concatenated. -/
def toplevelNPsList (trees : List PTree) : List PTree :=
  match trees with
  | [] => []
  | t :: ts => toplevelNPs t ++ toplevelNPsList ts
end

/-- One node of a dependency tree (MaltParser output), in the order of
`tree.nodes.values()`: each node carries a grammatical-relation label and a
head-word tag. -/
structure DepNode where
  rel : String
  tag : String
deriving DecidableEq, Repr

/-- A dependency tree: its nodes in `nodes.values()` order. -/
abbrev DepTree := List DepNode

/-- The per-text view of the resource pool, as the metrics consume it: each
field is the value of one `rp.<field>(t)` resource for the text under
analysis, plus the tagsets of the POS tagger (`rp.pos_tagger().tagset`) and
of the dependency parser's tagger (`rp.dep_parser().tagger.tagset`). -/
structure Resources where
  parse_trees : List PTree
  tagged_sentences : List (List TaggedWord)
  dep_trees : List DepTree
  tagged_words_in_sents : List (List TaggedWord)
  pos_tagset : Tagset
  dep_tagset : Tagset

/-- Modelled from the spec: the resource pool's `leaves_in_toplevel_nps` is
not under `src/`.  Per the spec it yields, per sentence, the "top-level
noun-phrase leaf groups": here, for each sentence's parse tree, the list of
leaf sequences of its top-level NPs. -/
def Resources.leaves_in_toplevel_nps (r : Resources) : List (List (List String)) :=
  r.parse_trees.map (fun tree => (toplevelNPs tree).map PTree.leaves)

/-! ### NounPhraseIncidence (`constituents.py`, lines 48-60) -/

/-- Number of non-punctuation tokens of a tagged sentence:
`len([word for word in tagged_sents[i] if not ...is_punctuation(word)])`. -/
def nonPunctCount (ts : Tagset) (sent : List TaggedWord) : Nat :=
  (sent.filter (fun w => !(ts.is_punctuation w))).length

/-- Per-sentence index of `NounPhraseIncidence`: `nps / (words / 1000)` with
`nps = len(find_subtrees(tree, 'NP'))`.  `tagged_sents[i]` out of range is an
`IndexError` and `words = 0` a `ZeroDivisionError`, both embedded as `none`. -/
def npSentIndex (r : Resources) (i : Nat) (tree : PTree) : Option ℚ := do
  let sent ← r.tagged_sentences[i]?
  let nps := (find_subtrees tree "NP").length
  let words := nonPunctCount r.pos_tagset sent
  if words = 0 then none
  else pure ((nps : ℚ) / ((words : ℚ) / 1000))

/-- Embedding of `NounPhraseIncidence.value_for_text`: mean of the per-sentence indices,
`0` if there are no sentences. -/
def NounPhraseIncidence.value_for_text (r : Resources) : Option ℚ := do
  let sent_indices ← r.parse_trees.enum.mapM (fun p => npSentIndex r p.1 p.2)
  if sent_indices.isEmpty then pure 0
  else pure (sent_indices.sum / (sent_indices.length : ℚ))

/-! ### Mean/Max/Min/Std NounPhrase (`constituents.py`, lines 63-115) -/

/-- The value type of the `numpy` means appearing in `MeanNounPhrase` and
`StdNounPhrase`: a rational, or NaN (which `np.mean` yields on an empty list
and propagates through further means). -/
inductive NpFloat where
  | nan
  | val (q : ℚ)
deriving DecidableEq, Repr

/-- Whether an `NpFloat` is NaN. -/
def NpFloat.isNan : NpFloat → Bool
  | .nan => true
  | .val _ => false

/-- The rational carried by an `NpFloat` (`0` for NaN; only used on non-NaN
values in the developments below). -/
def NpFloat.toQ : NpFloat → ℚ
  | .nan => 0
  | .val q => q

/-- Embedding of `np.mean` on a list of numbers: the arithmetic mean, NaN when the list is
empty. -/
def npMeanQ (l : List ℚ) : NpFloat :=
  if l.isEmpty then .nan else .val (l.sum / (l.length : ℚ))

/-- Embedding of `np.mean` on a list of possibly-NaN values: NaN when the list is empty or
contains a NaN, the arithmetic mean otherwise. -/
def npMeanF (l : List NpFloat) : NpFloat :=
  if l.isEmpty then .nan
  else if l.any NpFloat.isNan then .nan
  else .val ((l.map NpFloat.toQ).sum / (l.length : ℚ))

/-- Embedding of `MeanNounPhrase.value_for_text`:
`np.mean([np.mean([len(toplevel) for toplevel in sent]) for sent in all_leaves])`
with `all_leaves = rp.leaves_in_toplevel_nps(t)`. -/
def MeanNounPhrase.value_for_text (r : Resources) : NpFloat :=
  let all_leaves := r.leaves_in_toplevel_nps
  let mean_sizes := all_leaves.map
    (fun sent => npMeanQ (sent.map (fun toplevel => (toplevel.length : ℚ))))
  npMeanF mean_sizes

/-- The flattened size list shared by Max/Min/Std:
`[len(toplevel) for leaves in rp.leaves_in_toplevel_nps(t) for toplevel in leaves]`. -/
def np_sizes (r : Resources) : List Nat :=
  r.leaves_in_toplevel_nps.flatMap (fun leaves => leaves.map List.length)

/-- Embedding of `MaxNounPhrase.value_for_text`: `max(np_sizes)`; Python's `max` raises
`ValueError` on an empty list, embedded as `none`. -/
def MaxNounPhrase.value_for_text (r : Resources) : Option Nat :=
  (np_sizes r).max?

/-- Embedding of `MinNounPhrase.value_for_text`: `min(np_sizes)`; Python's `min` raises
`ValueError` on an empty list, embedded as `none`. -/
def MinNounPhrase.value_for_text (r : Resources) : Option Nat :=
  (np_sizes r).min?

/-- The square of `StdNounPhrase.value_for_text`.  `np.std(np_sizes)` is the
square root of the population variance (mean of squared deviations from the
mean, divisor `N`, numpy's default `ddof=0`); the square root of a rational is
in general irrational, so the embedding carries the variance — the square of
the value the code returns — and is NaN exactly when the code's value is NaN
(empty input). -/
def StdNounPhrase.valueSq_for_text (r : Resources) : NpFloat :=
  let sizes := (np_sizes r).map ((Nat.cast : ℕ → ℚ))
  if sizes.isEmpty then .nan
  else
    let mu := sizes.sum / (sizes.length : ℚ)
    .val ((sizes.map (fun x => (x - mu) * (x - mu))).sum / (sizes.length : ℚ))

/-! ### WordsBeforeMainVerb (`constituents.py`, lines 143-172) -/

/-- Python `s[-2:]`: the last two characters of a string (the whole string
when it has fewer than two). -/
def lastTwo (s : String) : String :=
  String.mk (s.data.drop (s.data.length - 2))

/-- The fallback scan of `WordsBeforeMainVerb`: the index of the first tagged
word that is a verb and whose surface form does not end in `do`, `ar`, `er`
or `ir` (`token[0][-2:] not in ('do', 'ar', 'er', 'ir')`); the initial value
`0` when no such word exists. -/
def wbmvFallback (pts : Tagset) (tagged_sent : List TaggedWord) : ℤ :=
  match tagged_sent.findIdx?
      (fun tok => pts.is_verb tok
        && !(["do", "ar", "er", "ir"].contains (lastTwo tok.surface))) with
  | some i => (i : ℤ)
  | none => 0

/-- One sentence's score in `WordsBeforeMainVerb`:
`i_root = [node['rel'] for node in tree.nodes.values()].index('ROOT')`
(a `ValueError`, embedded as `none`, when no node has relation ROOT); if the
root node's tag is a verb tag (`dep_tagset.is_verb(('', ...['tag']))`), the
score is `i_root - 1`, otherwise the fallback scan over the tagged words. -/
def wbmvSentScore (dts pts : Tagset) (tree : DepTree)
    (tagged_sent : List TaggedWord) : Option ℤ := do
  let i_root ← (tree.map DepNode.rel).findIdx? (fun rel => rel == "ROOT")
  let rootNode ← tree[i_root]?
  if dts.is_verb ⟨"", rootNode.tag⟩ then
    pure ((i_root : ℤ) - 1)
  else
    pure (wbmvFallback pts tagged_sent)

/-- Embedding of `WordsBeforeMainVerb.value_for_text`: per-sentence scores over
`zip(rp.dep_trees(t), rp.tagged_words_in_sents(t))`, averaged
(`0` if there are no sentences). -/
def WordsBeforeMainVerb.value_for_text (r : Resources) : Option ℚ := do
  let pairs := r.dep_trees.zip r.tagged_words_in_sents
  let sent_scores ← pairs.mapM
    (fun p => wbmvSentScore r.dep_tagset r.pos_tagset p.1 p.2)
  if sent_scores.isEmpty then pure 0
  else pure (((sent_scores.map ((Int.cast : ℤ → ℚ))).sum) / (sent_scores.length : ℚ))

/-! ### The Constituents category (`constituents.py`, lines 176-184) -/

/-- The immutable descriptor of a metric: display name and column key. -/
structure MetricDesc where
  name : String
  column_name : String
deriving DecidableEq, Repr

/-- The six metric descriptors of `coh/metrics/constituents.py`, in the order
the classes are defined in the module. -/
def constituentsModuleMetrics : List MetricDesc :=
  [⟨"Noun Phrase Incidence", "np_incidence"⟩,
   ⟨"Mean Noun Phrase", "mean_noun_phrase"⟩,
   ⟨"Maximum Noun Phrase", "max_noun_phrase"⟩,
   ⟨"Minimum Noun Phrase", "min_noun_phrase"⟩,
   ⟨"Std Noun Phrase", "std_noun_phrase"⟩,
   ⟨"Words before Main Verb", "words_before_main_verb"⟩]

/-- Python's `<` on strings, on the underlying character lists: lexicographic
comparison by Unicode code point (an executable embedding; core `String.lt`
is semantically the same order but not kernel-reducible). -/
def charListLtb : List Char → List Char → Bool
  | _, [] => false
  | [], _ :: _ => true
  | a :: as, b :: bs =>
      if a.val.toNat < b.val.toNat then true
      else if b.val.toNat < a.val.toNat then false
      else charListLtb as bs

/-- The comparison `Constituents.__init__` sorts by
(`self.metrics.sort(key=lambda m: m.name)`): non-strict Python string order
on the display names. -/
def nameLe (a b : MetricDesc) : Prop := charListLtb b.name.data a.name.data = false

/-- The strict version of `nameLe`, used to identify sorted sequences with
pairwise-distinct names. -/
def nameLt (a b : MetricDesc) : Prop := charListLtb a.name.data b.name.data = true

instance : DecidableRel nameLe :=
  fun a b => inferInstanceAs (Decidable (charListLtb b.name.data a.name.data = false))

instance : DecidableRel nameLt :=
  fun a b => inferInstanceAs (Decidable (charListLtb a.name.data b.name.data = true))

/-- The value of `Constituents.metrics` after `__init__`: the discovered metric instances
(`_set_metrics_from_module` — modelled from the spec, `base.py` is not under
`src/`: discovery collects every Metric subclass of the module, in an
unspecified order, so the argument below ranges over permutations of
`constituentsModuleMetrics`) sorted by display name. -/
def Constituents.metrics (discovered : List MetricDesc) : List MetricDesc :=
  discovered.insertionSort nameLe

/-! ### The resource pool (`coh/resource_pool.py`, not under `src/`) -/

/-- Modelled from the spec: the resource pool itself is not under `src/`.
State of the pool over texts `T`, resource kinds `K` and resources `R`: the
cache of already-computed `(text, kind)` pairs, plus a log of the external
tool invocations made so far (most recent first). -/
structure PoolState (T K R : Type) where
  cache : List ((T × K) × R)
  calls : List (T × K)

/-- The cached resource of a `(text, kind)` pair, if any. -/
def PoolState.lookup [DecidableEq T] [DecidableEq K]
    (s : PoolState T K R) (t : T) (k : K) : Option R :=
  (s.cache.find? (fun e => decide (e.1 = (t, k)))).map (fun e => e.2)

/-- Modelled from the spec: `get_or_compute(text, resource_kind)` — "On first
request for a (text, kind) pair, invokes the corresponding external tool and
stores the result; subsequent requests for the same pair return the cached
value without recomputation."  `tool` is the external tool being wrapped. -/
def get_or_compute [DecidableEq T] [DecidableEq K] (tool : T → K → R)
    (s : PoolState T K R) (t : T) (k : K) : R × PoolState T K R :=
  match s.lookup t k with
  | some r => (r, s)
  | none =>
      let r := tool t k
      (r, ⟨((t, k), r) :: s.cache, (t, k) :: s.calls⟩)

/-- How many times the external tool has been invoked for a given
`(text, kind)` pair. -/
def PoolState.toolCallCount [DecidableEq T] [DecidableEq K]
    (s : PoolState T K R) (t : T) (k : K) : Nat :=
  (s.calls.filter (fun p => decide (p = (t, k)))).length

/-! ### Specification-side formulas (stated from the claims, for comparison
with the code-side definitions above) -/

/-- Per-sentence score of Noun Phrase Incidence as the claim states it:
`NP_count / (word_count / 1000)` for sentence `i`, with `NP_count` the number
of constituents labeled "NP" in the sentence's parse tree and `word_count`
the number of non-punctuation tokens of the tagged sentence. -/
def npSpecScore (r : Resources) (i : Nat) : ℚ :=
  ((find_subtrees (r.parse_trees.getD i (PTree.leaf "")) "NP").length : ℚ) /
    ((nonPunctCount r.pos_tagset (r.tagged_sentences.getD i []) : ℚ) / 1000)

/-- Per-sentence score of Words Before Main Verb as the claim states it:
if the dependency tree's ROOT node's tag is a verb tag, the root's position
minus one; otherwise the index of the first verb-tagged word whose surface
form does not end in "do", "ar", "er" or "ir" (zero when none exists). -/
def wbmvSpecScore (dts pts : Tagset) (tree : DepTree)
    (tagged_sent : List TaggedWord) : ℤ :=
  let i_root := (((tree.map DepNode.rel).findIdx? (fun rel => rel == "ROOT")).getD 0)
  if dts.is_verb ⟨"", (tree.getD i_root ⟨"", ""⟩).tag⟩ then (i_root : ℤ) - 1
  else wbmvFallback pts tagged_sent

/-- Population variance of a list of rationals: mean of the squared deviations
from the mean (divisor `N`); the population standard deviation of the claims
is its square root. -/
def popVariance (l : List ℚ) : ℚ :=
  (l.map (fun x => (x - l.sum / (l.length : ℚ)) * (x - l.sum / (l.length : ℚ)))).sum /
    (l.length : ℚ)

/-- The metric sequence of the Constituents category sorted by display name,
written out. -/
def constituentsCanonical : List MetricDesc :=
  [⟨"Maximum Noun Phrase", "max_noun_phrase"⟩,
   ⟨"Mean Noun Phrase", "mean_noun_phrase"⟩,
   ⟨"Minimum Noun Phrase", "min_noun_phrase"⟩,
   ⟨"Noun Phrase Incidence", "np_incidence"⟩,
   ⟨"Std Noun Phrase", "std_noun_phrase"⟩,
   ⟨"Words before Main Verb", "words_before_main_verb"⟩]

/-! ### Concrete texts used to instantiate the theorems -/

/-- A trivial tagset: tags of the form `V...` are verbs, `PU` is punctuation
(the concrete tagsets of the external taggers are irrelevant to the
instantiations below beyond these two predicates). -/
def sampleTagset : Tagset :=
  ⟨fun w => w.tag.data.take 1 = ['V'], fun w => w.tag = "PU"⟩

/-- A one-NP sentence: `(S (NP a))`. -/
def sampleTreeA : PTree := .node "S" [.node "NP" [.leaf "a"]]

/-- A two-NP sentence: `(S (NP b c d) (NP e f))`. -/
def sampleTreeB : PTree :=
  .node "S" [.node "NP" [.leaf "b", .leaf "c", .leaf "d"],
             .node "NP" [.leaf "e", .leaf "f"]]

/-- A text with no sentences: every resource list is empty. -/
def emptyResources : Resources := ⟨[], [], [], [], sampleTagset, sampleTagset⟩

/-- A text whose sentences have no noun phrase at all: one sentence
`(S (VP x))`. -/
def noNpResources : Resources :=
  ⟨[.node "S" [.node "VP" [.leaf "x"]]], [[⟨"x", "V"⟩]], [], [], sampleTagset, sampleTagset⟩

/-- A two-sentence text whose flattened top-level NP size list is `[1, 3, 2]`. -/
def flatSizesResources : Resources :=
  ⟨[sampleTreeA, sampleTreeB], [], [], [], sampleTagset, sampleTagset⟩

/-- A one-sentence text for the incidence metrics: parse tree `sampleTreeA`
and tagged sentence of two non-punctuation words and a punctuation token. -/
def incidenceResources : Resources :=
  ⟨[sampleTreeA], [[⟨"a", "N"⟩, ⟨"runs", "V"⟩, ⟨".", "PU"⟩]], [], [],
   sampleTagset, sampleTagset⟩

/-- A one-sentence text for Words Before Main Verb: a dependency tree whose
ROOT node sits at position 2 and carries a verb tag. -/
def wbmvResources : Resources :=
  ⟨[], [], [[⟨"TOP", ""⟩, ⟨"SUBJ", "N"⟩, ⟨"ROOT", "V"⟩]],
   [[⟨"ele", "PRON"⟩, ⟨"come", "V"⟩]], sampleTagset, sampleTagset⟩

/-! ### Order properties of the Python string comparison -/

lemma charListLtb_asymm : ∀ (l₁ l₂ : List Char),
    charListLtb l₁ l₂ = true → charListLtb l₂ l₁ = false := by
  intro l₁
  induction l₁ with
  | nil =>
    intro l₂ h
    cases l₂ with
    | nil => simp [charListLtb] at h
    | cons b bs => simp [charListLtb]
  | cons a as ih =>
    intro l₂ h
    cases l₂ with
    | nil => simp [charListLtb] at h
    | cons b bs =>
      simp only [charListLtb] at h ⊢
      by_cases hab : a.val.toNat < b.val.toNat
      · have hba : ¬ b.val.toNat < a.val.toNat := by omega
        simp [hab, hba]
      · by_cases hba : b.val.toNat < a.val.toNat
        · simp [hab, hba] at h
        · have h' : charListLtb as bs = true := by simpa [hab, hba] using h
          simp [hab, hba, ih bs h']

lemma charListLtb_trans : ∀ (l₁ l₂ l₃ : List Char),
    charListLtb l₁ l₂ = true → charListLtb l₂ l₃ = true →
    charListLtb l₁ l₃ = true := by
  intro l₁
  induction l₁ with
  | nil =>
    intro l₂ l₃ h12 h23
    cases l₂ with
    | nil => simp [charListLtb] at h12
    | cons b bs =>
      cases l₃ with
      | nil => simp [charListLtb] at h23
      | cons c cs => simp [charListLtb]
  | cons a as ih =>
    intro l₂ l₃ h12 h23
    cases l₂ with
    | nil => simp [charListLtb] at h12
    | cons b bs =>
      cases l₃ with
      | nil => simp [charListLtb] at h23
      | cons c cs =>
        simp only [charListLtb] at h12 h23 ⊢
        by_cases hab : a.val.toNat < b.val.toNat
        · by_cases hbc : b.val.toNat < c.val.toNat
          · have hac : a.val.toNat < c.val.toNat := by omega
            simp [hac]
          · by_cases hcb : c.val.toNat < b.val.toNat
            · simp [hbc, hcb] at h23
            · have hac : a.val.toNat < c.val.toNat := by omega
              simp [hac]
        · by_cases hba : b.val.toNat < a.val.toNat
          · simp [hab, hba] at h12
          · by_cases hbc : b.val.toNat < c.val.toNat
            · have hac : a.val.toNat < c.val.toNat := by omega
              simp [hac]
            · by_cases hcb : c.val.toNat < b.val.toNat
              · simp [hbc, hcb] at h23
              · have h12' : charListLtb as bs = true := by simpa [hab, hba] using h12
                have h23' : charListLtb bs cs = true := by simpa [hbc, hcb] using h23
                have hac1 : ¬ a.val.toNat < c.val.toNat := by omega
                have hac2 : ¬ c.val.toNat < a.val.toNat := by omega
                simp [hac1, hac2, ih bs cs h12' h23']

lemma charListLtb_eq_of_false : ∀ (l₁ l₂ : List Char),
    charListLtb l₁ l₂ = false → charListLtb l₂ l₁ = false → l₁ = l₂ := by
  intro l₁
  induction l₁ with
  | nil =>
    intro l₂ h12 _
    cases l₂ with
    | nil => rfl
    | cons b bs => simp [charListLtb] at h12
  | cons a as ih =>
    intro l₂ h12 h21
    cases l₂ with
    | nil => simp [charListLtb] at h21
    | cons b bs =>
      simp only [charListLtb] at h12 h21
      by_cases hab : a.val.toNat < b.val.toNat
      · simp [hab] at h12
      · by_cases hba : b.val.toNat < a.val.toNat
        · simp [hba, hab] at h21
        · have heq : a = b := Char.ext (UInt32.toNat.inj (by omega))
          have h12' : charListLtb as bs = false := by simpa [hab, hba] using h12
          have h21' : charListLtb bs as = false := by simpa [hab, hba] using h21
          rw [heq, ih bs h12' h21']

instance : IsTotal MetricDesc nameLe := by
  constructor
  intro a b
  by_cases h : charListLtb b.name.data a.name.data = false
  · exact Or.inl h
  · exact Or.inr (charListLtb_asymm _ _ (by simpa using h))

instance : IsTrans MetricDesc nameLe := by
  constructor
  intro a b c hab hbc
  show charListLtb c.name.data a.name.data = false
  by_contra h
  have h' : charListLtb c.name.data a.name.data = true := by simpa using h
  by_cases hba : charListLtb a.name.data b.name.data = true
  · have h2 : charListLtb c.name.data b.name.data = true :=
      charListLtb_trans _ _ _ h' hba
    rw [hbc] at h2
    exact Bool.noConfusion h2
  · have heq : a.name.data = b.name.data :=
      charListLtb_eq_of_false _ _ (by simpa using hba) hab
    rw [heq] at h'
    rw [hbc] at h'
    exact Bool.noConfusion h'

instance : IsAntisymm MetricDesc nameLt := by
  constructor
  intro a b hab hba
  have h := charListLtb_asymm _ _ hab
  rw [hba] at h
  exact Bool.noConfusion h

/-- A sequence that is sorted under the non-strict name order and whose names
are pairwise distinct is sorted under the strict name order. -/
lemma pairwise_nameLt_of_sorted (l : List MetricDesc)
    (hle : l.Pairwise nameLe) (hn : (l.map MetricDesc.name).Nodup) :
    l.Pairwise nameLt := by
  have hne : l.Pairwise (fun a b => a.name ≠ b.name) := List.pairwise_map.mp hn
  refine (hle.and hne).imp ?_
  rintro a b ⟨h1, h2⟩
  show charListLtb a.name.data b.name.data = true
  by_contra h
  have h' : charListLtb a.name.data b.name.data = false := by simpa using h
  exact h2 (String.ext (charListLtb_eq_of_false _ _ h' h1))

/-! ### Generic helpers -/

/-- Mapping with `mapM` over `Option` succeeds elementwise: when `f` returns `some (g a)`
on every member of the list, `l.mapM f = some (l.map g)`. -/
lemma mapM_option_eq_map {α β : Type} {f : α → Option β} {g : α → β} :
    ∀ (l : List α), (∀ a ∈ l, f a = some (g a)) → l.mapM f = some (l.map g) := by
  intro l
  induction l with
  | nil => intro _; rfl
  | cons a as ih =>
    intro h
    rw [List.mapM_cons, h a (List.mem_cons_self a as), ih (fun x hx => h x (List.mem_cons_of_mem a hx))]
    rfl

/-- Applying `npMeanF` to a list of plain (non-NaN) values gives the arithmetic mean. -/
lemma npMeanF_vals (qs : List ℚ) (h : qs ≠ []) :
    npMeanF (qs.map NpFloat.val) = NpFloat.val (qs.sum / (qs.length : ℚ)) := by
  have h1 : (qs.map NpFloat.val).isEmpty = false := by
    simp [List.isEmpty_iff, h]
  have h2 : (qs.map NpFloat.val).any NpFloat.isNan = false := by
    simp [List.any_map, NpFloat.isNan, Function.comp]
  have h3 : List.map (NpFloat.toQ ∘ NpFloat.val) qs = qs := by
    simp only [Function.comp_def, NpFloat.toQ, List.map_id']
  rw [npMeanF, h1, h2]
  simp [List.map_map, h3]

/-! ### Claim theorems -/

/-- C9: after construction of the Constituents category, its metric sequence
is sorted in ascending order by display name under locale-naive (code-point
lexicographic) string ordering, whatever the order in which the Metric
subclasses were discovered by `_set_metrics_from_module`; it equals the
canonical sorted sequence. -/
theorem constituents_metrics_sorted (l : List MetricDesc)
    (hl : l.Perm constituentsModuleMetrics) :
    Constituents.metrics l = constituentsCanonical ∧
    List.Sorted nameLe (Constituents.metrics l) := by
  have hsorted : List.Sorted nameLe (Constituents.metrics l) :=
    List.sorted_insertionSort nameLe l
  have hperm : (Constituents.metrics l).Perm constituentsCanonical :=
    (List.perm_insertionSort nameLe l).trans (hl.trans (by decide))
  have hnames : ((Constituents.metrics l).map MetricDesc.name).Nodup := by
    refine (List.Perm.nodup_iff (hperm.map MetricDesc.name)).mpr ?_
    decide
  have h1 : (Constituents.metrics l).Pairwise nameLt :=
    pairwise_nameLt_of_sorted _ hsorted hnames
  have h2 : constituentsCanonical.Pairwise nameLt := by decide
  exact ⟨List.eq_of_perm_of_sorted hperm h1 h2, hsorted⟩

/-- Witness for C9, at a discovery order different from the module order
(the module list reversed). -/
theorem constituents_metrics_sorted_witness :
    constituentsModuleMetrics.reverse.Perm constituentsModuleMetrics ∧
    (Constituents.metrics constituentsModuleMetrics.reverse = constituentsCanonical ∧
      List.Sorted nameLe (Constituents.metrics constituentsModuleMetrics.reverse)) :=
  ⟨List.reverse_perm _, constituents_metrics_sorted _ (List.reverse_perm _)⟩

/-- Core computation of `NounPhraseIncidence.value_for_text` on a text with at
least one sentence, a tagged sentence for every parse tree, and at least one
non-punctuation word per sentence: the arithmetic mean of the per-sentence
spec scores. -/
lemma npi_value_spec (r : Resources)
    (hlen : r.tagged_sentences.length = r.parse_trees.length)
    (hne : r.parse_trees ≠ [])
    (hw : ∀ i, i < r.parse_trees.length →
      nonPunctCount r.pos_tagset (r.tagged_sentences.getD i []) ≠ 0) :
    NounPhraseIncidence.value_for_text r =
      some (((List.range r.parse_trees.length).map (npSpecScore r)).sum /
        (r.parse_trees.length : ℚ)) := by
  have hstep : ∀ p ∈ r.parse_trees.enum,
      npSentIndex r p.1 p.2 = some (npSpecScore r p.1) := by
    intro p hp
    rw [List.mem_enum_iff_getElem?] at hp
    obtain ⟨hi, hget⟩ := List.getElem?_eq_some.mp hp
    have hi2 : p.1 < r.tagged_sentences.length := by omega
    have hsent : r.tagged_sentences[p.1]? = some (r.tagged_sentences.getD p.1 []) := by
      rw [List.getD_eq_getElem?_getD, List.getElem?_eq_getElem hi2]
      rfl
    have htree : r.parse_trees.getD p.1 (PTree.leaf "") = p.2 := by
      rw [List.getD_eq_getElem?_getD, List.getElem?_eq_getElem hi, hget]
      rfl
    have hwz := hw p.1 hi
    simp only [npSentIndex, npSpecScore, htree, Option.bind_eq_bind, hsent,
      Option.some_bind]
    rw [if_neg hwz]
    rfl
  have hmap : r.parse_trees.enum.map (fun p => npSpecScore r p.1)
      = (List.range r.parse_trees.length).map (npSpecScore r) := by
    have h1 : (r.parse_trees.enum.map Prod.fst).map (npSpecScore r)
        = r.parse_trees.enum.map (fun p => npSpecScore r p.1) := by
      rw [List.map_map]
      rfl
    rw [← h1, List.enum_eq_enumFrom, List.enumFrom_map_fst, ← List.range_eq_range']
  have hemp : ((List.range r.parse_trees.length).map (npSpecScore r)).isEmpty = false := by
    simp only [List.isEmpty_eq_false_iff_exists_mem]
    exact ⟨npSpecScore r 0, List.mem_map_of_mem _
      (List.mem_range.mpr (Nat.pos_of_ne_zero (fun h0 =>
        hne (List.length_eq_zero.mp h0))))⟩
  rw [NounPhraseIncidence.value_for_text, mapM_option_eq_map _ hstep, hmap]
  simp [hemp]
  intro h0
  exact absurd h0 hne

/-- C1: for every text with at least one sentence — with a tagged sentence per
parse tree, each containing at least one non-punctuation word, so that every
per-sentence score is defined — `NounPhraseIncidence.value_for_text` returns
the arithmetic mean over the sentences of `NP_count / (word_count / 1000)`. -/
theorem noun_phrase_incidence_mean (r : Resources)
    (hlen : r.tagged_sentences.length = r.parse_trees.length)
    (hne : r.parse_trees ≠ [])
    (hw : ∀ i, i < r.parse_trees.length →
      nonPunctCount r.pos_tagset (r.tagged_sentences.getD i []) ≠ 0) :
    NounPhraseIncidence.value_for_text r =
      some (((List.range r.parse_trees.length).map (npSpecScore r)).sum /
        (r.parse_trees.length : ℚ)) :=
  npi_value_spec r hlen hne hw

/-- Witness for C1 on a concrete one-sentence text. -/
theorem noun_phrase_incidence_mean_witness :
    (incidenceResources.tagged_sentences.length =
        incidenceResources.parse_trees.length ∧
      incidenceResources.parse_trees ≠ [] ∧
      ∀ i, i < incidenceResources.parse_trees.length →
        nonPunctCount incidenceResources.pos_tagset
          (incidenceResources.tagged_sentences.getD i []) ≠ 0) ∧
    NounPhraseIncidence.value_for_text incidenceResources =
      some (((List.range incidenceResources.parse_trees.length).map
          (npSpecScore incidenceResources)).sum /
        (incidenceResources.parse_trees.length : ℚ)) :=
  ⟨⟨by decide, List.cons_ne_nil _ _, by decide⟩,
    noun_phrase_incidence_mean incidenceResources (by decide) (List.cons_ne_nil _ _) (by decide)⟩

/-- C8: on a text with `N ≥ 1` sentences whose NP counts and non-punctuation
word counts are all equal (`c` and `w`, with `w ≠ 0` so the ratio is defined),
the incidence equals the common per-sentence ratio `c / (w / 1000)` exactly. -/
theorem equal_sentences_incidence_exact (r : Resources) (c w : Nat)
    (hlen : r.tagged_sentences.length = r.parse_trees.length)
    (hne : r.parse_trees ≠ [])
    (hc : ∀ i, i < r.parse_trees.length →
      (find_subtrees (r.parse_trees.getD i (PTree.leaf "")) "NP").length = c)
    (hwc : ∀ i, i < r.parse_trees.length →
      nonPunctCount r.pos_tagset (r.tagged_sentences.getD i []) = w)
    (hw0 : w ≠ 0) :
    NounPhraseIncidence.value_for_text r = some ((c : ℚ) / ((w : ℚ) / 1000)) := by
  have hw : ∀ i, i < r.parse_trees.length →
      nonPunctCount r.pos_tagset (r.tagged_sentences.getD i []) ≠ 0 := by
    intro i hi
    rw [hwc i hi]
    exact hw0
  rw [npi_value_spec r hlen hne hw]
  have hconst : (List.range r.parse_trees.length).map (npSpecScore r)
      = List.replicate r.parse_trees.length ((c : ℚ) / ((w : ℚ) / 1000)) := by
    rw [List.eq_replicate_iff]
    refine ⟨by simp, ?_⟩
    intro b hb
    obtain ⟨i, hi, rfl⟩ := List.mem_map.mp hb
    have hi' := List.mem_range.mp hi
    rw [npSpecScore, hc i hi', hwc i hi']
  have hn0 : (r.parse_trees.length : ℚ) ≠ 0 := by
    exact_mod_cast fun h0 => hne (List.length_eq_zero.mp (by exact_mod_cast h0))
  have hwq : (w : ℚ) ≠ 0 := Nat.cast_ne_zero.mpr hw0
  rw [hconst, List.sum_replicate, nsmul_eq_mul]
  congr 1
  field_simp
  ring

/-- Witness for C8 on a concrete one-sentence text with `c = 1` NP and
`w = 2` non-punctuation words: the value is `1 / (2/1000) = 500`. -/
theorem equal_sentences_incidence_exact_witness :
    (incidenceResources.tagged_sentences.length =
        incidenceResources.parse_trees.length ∧
      incidenceResources.parse_trees ≠ [] ∧
      (∀ i, i < incidenceResources.parse_trees.length →
        (find_subtrees (incidenceResources.parse_trees.getD i (PTree.leaf ""))
          "NP").length = 1) ∧
      (∀ i, i < incidenceResources.parse_trees.length →
        nonPunctCount incidenceResources.pos_tagset
          (incidenceResources.tagged_sentences.getD i []) = 2) ∧
      (2 : Nat) ≠ 0) ∧
    NounPhraseIncidence.value_for_text incidenceResources =
      some ((1 : ℚ) / ((2 : ℚ) / 1000)) :=
  ⟨⟨by decide, List.cons_ne_nil _ _, by decide, by decide, by decide⟩,
    equal_sentences_incidence_exact incidenceResources 1 2
      (by decide) (List.cons_ne_nil _ _) (by decide) (by decide) (by decide)⟩

/-- On a sentence whose dependency tree has a ROOT node, the per-sentence
computation of `WordsBeforeMainVerb` succeeds and returns the spec score. -/
lemma wbmvSentScore_eq_spec (dts pts : Tagset) (tree : DepTree)
    (sent : List TaggedWord) (h : ∃ nd ∈ tree, nd.rel = "ROOT") :
    wbmvSentScore dts pts tree sent = some (wbmvSpecScore dts pts tree sent) := by
  have hex : ∃ x, x ∈ tree.map DepNode.rel ∧ (x == "ROOT") = true := by
    obtain ⟨nd, hnd, hrel⟩ := h
    exact ⟨nd.rel, List.mem_map_of_mem _ hnd, by simp [hrel]⟩
  have hfind := List.findIdx?_eq_some_of_exists hex
  have hlt : (tree.map DepNode.rel).findIdx (fun rel => rel == "ROOT")
      < tree.length := by
    have h1 := (List.findIdx?_eq_some_iff_findIdx_eq.mp hfind).1
    simpa using h1
  have hnode : tree[(tree.map DepNode.rel).findIdx (fun rel => rel == "ROOT")]?
      = some (tree.getD ((tree.map DepNode.rel).findIdx (fun rel => rel == "ROOT"))
        ⟨"", ""⟩) := by
    rw [List.getD_eq_getElem?_getD, List.getElem?_eq_getElem hlt]
    rfl
  rw [wbmvSentScore, wbmvSpecScore, hfind]
  simp only [Option.bind_eq_bind, Option.some_bind, hnode, Option.getD_some]
  split <;> rfl

/-- C2: on a text with a dependency tree and tagged-word sentence pair for
every sentence, each tree containing a ROOT node, the metric value of
`WordsBeforeMainVerb` is the mean of the per-sentence scores described by the
claim (ROOT-position minus one when the root's tag is a verb tag, otherwise
the first suffix-filtered verb's index, zero when none). -/
theorem words_before_main_verb_spec (r : Resources)
    (hlen : r.dep_trees.length = r.tagged_words_in_sents.length)
    (hne : r.dep_trees ≠ [])
    (hroot : ∀ tr ∈ r.dep_trees, ∃ nd ∈ tr, nd.rel = "ROOT") :
    WordsBeforeMainVerb.value_for_text r =
      some (((r.dep_trees.zip r.tagged_words_in_sents).map
          (fun p => ((wbmvSpecScore r.dep_tagset r.pos_tagset p.1 p.2 : ℤ) : ℚ))).sum /
        (r.dep_trees.length : ℚ)) := by
  have hstep : ∀ p ∈ r.dep_trees.zip r.tagged_words_in_sents,
      wbmvSentScore r.dep_tagset r.pos_tagset p.1 p.2
        = some (wbmvSpecScore r.dep_tagset r.pos_tagset p.1 p.2) := by
    rintro ⟨tr, sent⟩ hp
    exact wbmvSentScore_eq_spec _ _ _ _ (hroot tr (List.of_mem_zip hp).1)
  have hlz : (r.dep_trees.zip r.tagged_words_in_sents).length
      = r.dep_trees.length := by
    rw [List.length_zip, hlen, Nat.min_self]
  have hemp : ((r.dep_trees.zip r.tagged_words_in_sents).map
      (fun p => wbmvSpecScore r.dep_tagset r.pos_tagset p.1 p.2)).isEmpty
      = false := by
    rw [List.isEmpty_eq_false_iff_exists_mem]
    have hpos : 0 < r.dep_trees.length :=
      Nat.pos_of_ne_zero (fun h0 => hne (List.length_eq_zero.mp h0))
    have : 0 < ((r.dep_trees.zip r.tagged_words_in_sents).map
        (fun p => wbmvSpecScore r.dep_tagset r.pos_tagset p.1 p.2)).length := by
      rw [List.length_map, hlz]
      exact hpos
    exact ⟨_, List.getElem_mem this⟩
  have hcond : ¬ (((r.dep_trees.zip r.tagged_words_in_sents).map
      (fun p => wbmvSpecScore r.dep_tagset r.pos_tagset p.1 p.2)).isEmpty = true) := by
    simp [hemp]
  rw [WordsBeforeMainVerb.value_for_text, mapM_option_eq_map _ hstep]
  simp only [Option.bind_eq_bind, Option.some_bind, if_neg hcond]
  rw [List.map_map, List.length_map, hlz]
  rfl

/-- Witness for C2 on a concrete one-sentence text whose dependency tree has
its verb-tagged ROOT at position 2 (score `2 - 1 = 1`). -/
theorem words_before_main_verb_spec_witness :
    (wbmvResources.dep_trees.length = wbmvResources.tagged_words_in_sents.length ∧
      wbmvResources.dep_trees ≠ [] ∧
      ∀ tr ∈ wbmvResources.dep_trees, ∃ nd ∈ tr, nd.rel = "ROOT") ∧
    WordsBeforeMainVerb.value_for_text wbmvResources =
      some (((wbmvResources.dep_trees.zip wbmvResources.tagged_words_in_sents).map
          (fun p => ((wbmvSpecScore wbmvResources.dep_tagset wbmvResources.pos_tagset
            p.1 p.2 : ℤ) : ℚ))).sum /
        (wbmvResources.dep_trees.length : ℚ)) :=
  ⟨⟨by decide, List.cons_ne_nil _ _, by decide⟩,
    words_before_main_verb_spec wbmvResources (by decide) (List.cons_ne_nil _ _)
      (by decide)⟩

/-- C3: on a text with zero sentences (empty parse-tree and dependency-tree
lists) both `NounPhraseIncidence` and `WordsBeforeMainVerb` return `0`, and no
exception is raised (the result is `some`, not `none`). -/
theorem zero_sentences_return_zero (r : Resources)
    (hp : r.parse_trees = []) (hd : r.dep_trees = []) :
    NounPhraseIncidence.value_for_text r = some 0 ∧
    WordsBeforeMainVerb.value_for_text r = some 0 := by
  constructor
  · rw [NounPhraseIncidence.value_for_text]
    simp only [hp]
    rfl
  · rw [WordsBeforeMainVerb.value_for_text]
    simp only [hd]
    rfl

/-- Witness for C3 on the concrete empty text. -/
theorem zero_sentences_return_zero_witness :
    (emptyResources.parse_trees = [] ∧ emptyResources.dep_trees = []) ∧
    (NounPhraseIncidence.value_for_text emptyResources = some 0 ∧
      WordsBeforeMainVerb.value_for_text emptyResources = some 0) :=
  ⟨⟨rfl, rfl⟩, zero_sentences_return_zero emptyResources rfl rfl⟩

/-- C4: on a text whose flattened top-level noun-phrase size list is empty,
`MaxNounPhrase` and `MinNounPhrase` raise (`max()`/`min()` of an empty list is
a `ValueError`, embedded as `none`) instead of returning a default number. -/
theorem max_min_noun_phrase_empty_error (r : Resources)
    (h : np_sizes r = []) :
    MaxNounPhrase.value_for_text r = none ∧
    MinNounPhrase.value_for_text r = none := by
  rw [MaxNounPhrase.value_for_text, MinNounPhrase.value_for_text, h]
  exact ⟨rfl, rfl⟩

/-- Witness for C4 on a concrete text with one sentence and no noun phrase. -/
theorem max_min_noun_phrase_empty_error_witness :
    np_sizes noNpResources = [] ∧
    (MaxNounPhrase.value_for_text noNpResources = none ∧
      MinNounPhrase.value_for_text noNpResources = none) :=
  ⟨rfl, max_min_noun_phrase_empty_error noNpResources rfl⟩

/-- C5: when every sentence has at least one top-level noun phrase (and there
is at least one sentence, so that the mean is defined), `MeanNounPhrase` is
the mean over sentences of the per-sentence mean NP size — a mean of
per-sentence means, not a mean of the flattened size list. -/
theorem mean_noun_phrase_per_sentence_means (r : Resources)
    (hne : r.leaves_in_toplevel_nps ≠ [])
    (hall : ∀ sent ∈ r.leaves_in_toplevel_nps, sent ≠ []) :
    MeanNounPhrase.value_for_text r =
      NpFloat.val ((r.leaves_in_toplevel_nps.map
          (fun sent => (sent.map (fun toplevel => (toplevel.length : ℚ))).sum /
            (sent.length : ℚ))).sum /
        (r.leaves_in_toplevel_nps.length : ℚ)) := by
  rw [MeanNounPhrase.value_for_text]
  have hmap : r.leaves_in_toplevel_nps.map
      (fun sent => npMeanQ (sent.map (fun toplevel => (toplevel.length : ℚ))))
      = (r.leaves_in_toplevel_nps.map
          (fun sent => (sent.map (fun toplevel => (toplevel.length : ℚ))).sum /
            (sent.length : ℚ))).map NpFloat.val := by
    rw [List.map_map]
    apply List.map_congr_left
    intro sent hsent
    have hse : (sent.map (fun toplevel => (toplevel.length : ℚ))).isEmpty = false := by
      simp [List.isEmpty_iff, hall sent hsent]
    simp [npMeanQ, hse, Function.comp_def]
  rw [hmap, npMeanF_vals]
  · simp
  · intro h0
    exact hne (List.map_eq_nil_iff.mp h0)

/-- Witness for C5 on a concrete two-sentence text with top-level NP sizes
`[1]` and `[3, 2]`. -/
theorem mean_noun_phrase_per_sentence_means_witness :
    (flatSizesResources.leaves_in_toplevel_nps ≠ [] ∧
      ∀ sent ∈ flatSizesResources.leaves_in_toplevel_nps, sent ≠ []) ∧
    MeanNounPhrase.value_for_text flatSizesResources =
      NpFloat.val ((flatSizesResources.leaves_in_toplevel_nps.map
          (fun sent => (sent.map (fun toplevel => (toplevel.length : ℚ))).sum /
            (sent.length : ℚ))).sum /
        (flatSizesResources.leaves_in_toplevel_nps.length : ℚ)) :=
  ⟨⟨List.cons_ne_nil _ _, by decide⟩,
    mean_noun_phrase_per_sentence_means flatSizesResources
      (List.cons_ne_nil _ _) (by decide)⟩

/-- C6: on a text with zero sentences (`leaves_in_toplevel_nps` empty),
`MeanNounPhrase` neither returns `0` nor raises: it returns NaN, the
`np.mean` of an empty list. -/
theorem mean_noun_phrase_empty_nan (r : Resources)
    (h : r.leaves_in_toplevel_nps = []) :
    MeanNounPhrase.value_for_text r = NpFloat.nan ∧
    NpFloat.nan ≠ NpFloat.val 0 := by
  constructor
  · rw [MeanNounPhrase.value_for_text]
    simp [h, npMeanF]
  · simp

/-- Witness for C6 on the concrete empty text. -/
theorem mean_noun_phrase_empty_nan_witness :
    emptyResources.leaves_in_toplevel_nps = [] ∧
    (MeanNounPhrase.value_for_text emptyResources = NpFloat.nan ∧
      NpFloat.nan ≠ NpFloat.val 0) :=
  ⟨rfl, mean_noun_phrase_empty_nan emptyResources rfl⟩

/-- C7: Max/Min/Std all operate on the one flattened size list; on the
concrete text whose flattened top-level NP size list is `[1, 3, 2]`, Max is
`3`, Min is `1`, and Std is the population (divisor `N`) standard deviation
of `[1, 3, 2]` — its square being the population variance `2/3`. -/
theorem flattened_sizes_max_min_std :
    np_sizes flatSizesResources = [1, 3, 2] ∧
    MaxNounPhrase.value_for_text flatSizesResources = some 3 ∧
    MinNounPhrase.value_for_text flatSizesResources = some 1 ∧
    StdNounPhrase.valueSq_for_text flatSizesResources =
      NpFloat.val (popVariance [1, 3, 2]) ∧
    popVariance [1, 3, 2] = 2 / 3 := by
  have h1 : np_sizes flatSizesResources = [1, 3, 2] := rfl
  have h2 : popVariance [1, 3, 2] = 2 / 3 := by
    norm_num [popVariance]
  refine ⟨h1, rfl, rfl, ?_, h2⟩
  simp only [StdNounPhrase.valueSq_for_text, h1, h2]
  norm_num [popVariance]

/-- C10: requesting the same `(text, kind)` resource twice from a pool that
has not yet served it returns identical values, leaves the pool unchanged on
the second request, and invokes the external tool exactly once. -/
theorem resource_pool_idempotent {T K R : Type} [DecidableEq T] [DecidableEq K]
    (tool : T → K → R) (s : PoolState T K R) (t : T) (k : K)
    (hmiss : s.lookup t k = none) (hcount : s.toolCallCount t k = 0) :
    (get_or_compute tool (get_or_compute tool s t k).2 t k).1
        = (get_or_compute tool s t k).1 ∧
    (get_or_compute tool (get_or_compute tool s t k).2 t k).2
        = (get_or_compute tool s t k).2 ∧
    ((get_or_compute tool s t k).2).toolCallCount t k = 1 := by
  have hfirst : get_or_compute tool s t k
      = (tool t k, ⟨((t, k), tool t k) :: s.cache, (t, k) :: s.calls⟩) := by
    rw [get_or_compute, hmiss]
  have hlookup2 : (PoolState.lookup
      ⟨((t, k), tool t k) :: s.cache, (t, k) :: s.calls⟩ t k : Option R)
      = some (tool t k) := by
    rw [PoolState.lookup]
    simp [List.find?]
  have hsecond : get_or_compute tool
      (⟨((t, k), tool t k) :: s.cache, (t, k) :: s.calls⟩ : PoolState T K R) t k
      = (tool t k, ⟨((t, k), tool t k) :: s.cache, (t, k) :: s.calls⟩) := by
    rw [get_or_compute, hlookup2]
  refine ⟨?_, ?_, ?_⟩
  · rw [hfirst, hsecond]
  · rw [hfirst, hsecond]
  · rw [hfirst]
    show (((t, k) :: s.calls).filter (fun p => decide (p = (t, k)))).length = 1
    rw [List.filter_cons]
    simp only [decide_eq_true_eq]
    rw [if_pos trivial]
    rw [PoolState.toolCallCount] at hcount
    simp [List.length_cons, hcount]

/-- Witness for C10 with natural-number texts, kinds and resources, starting
from the empty pool. -/
theorem resource_pool_idempotent_witness :
    ((⟨[], []⟩ : PoolState Nat Nat Nat).lookup 1 2 = none ∧
      (⟨[], []⟩ : PoolState Nat Nat Nat).toolCallCount 1 2 = 0) ∧
    ((get_or_compute (fun a b => a + b)
        (get_or_compute (fun a b => a + b) (⟨[], []⟩ : PoolState Nat Nat Nat) 1 2).2
        1 2).1
      = (get_or_compute (fun a b => a + b) (⟨[], []⟩ : PoolState Nat Nat Nat) 1 2).1 ∧
    (get_or_compute (fun a b => a + b)
        (get_or_compute (fun a b => a + b) (⟨[], []⟩ : PoolState Nat Nat Nat) 1 2).2
        1 2).2
      = (get_or_compute (fun a b => a + b) (⟨[], []⟩ : PoolState Nat Nat Nat) 1 2).2 ∧
    ((get_or_compute (fun a b => a + b) (⟨[], []⟩ : PoolState Nat Nat Nat) 1 2).2).toolCallCount
        1 2 = 1) :=
  ⟨⟨rfl, rfl⟩, resource_pool_idempotent (fun a b => a + b) ⟨[], []⟩ 1 2 rfl rfl⟩

end CohMetrix
